import Mathlib

/-
  Verification of the streaming generation orchestration layer described in
  the repository's specification, together with the NoObjectGeneratedError
  class from packages/ai/errors/no-object-generated-error.ts.

  The orchestration core (step controller, tool invocation engine, stream
  multiplexer, cancellation propagation) is surfaced in the repository only
  through documentation; its behaviour is therefore modelled from the spec,
  as marked on each definition. The error class is embedded from the
  TypeScript source directly.
-/

namespace VercelAI

/-- Modelled from the spec: an input payload carried by a Tool Call, to be
checked against a Tool Definition's input shape (the repository's tool
engine itself is not under src; payloads are JSON-like values). -/
inductive ToolInput where
  | num (n : Int)
  | str (s : String)
deriving DecidableEq, Repr

/-- Modelled from the spec: a Tool Definition is a capability description —
a name (unique within a run), an input-shape validator (a mismatch yields
the validation failure detail), and an executor function that may fail. -/
structure ToolDefinition where
  name : String
  validate : ToolInput → Except String Unit
  execute : ToolInput → Except String ToolInput

/-- Two Tool Definitions with the same name and the same input-shape
validator (their executors may differ). -/
def sameShape (d1 d2 : ToolDefinition) : Prop :=
  d1.name = d2.name ∧ d1.validate = d2.validate

/-- Modelled from the spec: a Tool Call is a request emitted by the backend
referencing a Tool Definition by name, with a call identifier unique within
the step and a raw input payload. -/
structure ToolCall where
  id : Nat
  toolName : String
  input : ToolInput
deriving DecidableEq, Repr

/-- Modelled from the spec: the outcome carried by a Tool Result — a value
on success, or one of the locally recovered error markers ("unknown tool",
"invalid input" with detail, execution failure, "cancelled"). -/
inductive ToolOutcome where
  | ok (v : ToolInput)
  | errorUnknownTool
  | errorInvalidInput (detail : String)
  | errorExecution (e : String)
  | errorCancelled
deriving DecidableEq, Repr

/-- Modelled from the spec: a Tool Result is the output of executing a Tool
Call, paired to the call by its identifier. -/
structure ToolResult where
  callId : Nat
  toolName : String
  outcome : ToolOutcome
deriving DecidableEq, Repr

/-- Modelled from the spec: tool lookup is by name in the caller-provided
tool definitions (a registry keyed by tool name). -/
def lookupTool (defs : List ToolDefinition) (toolName : String) : Option ToolDefinition :=
  defs.find? (fun d => d.name == toolName)

/-- Modelled from the spec: processing of one Tool Call — unknown tool and
invalid input become error Tool Results without invoking the executor; a
cancelled token skips execution; an executor failure is recorded as an
error Tool Result. -/
def invokeOne (defs : List ToolDefinition) (cancelled : Bool) (c : ToolCall) : ToolResult :=
  match lookupTool defs c.toolName with
  | none => ⟨c.id, c.toolName, .errorUnknownTool⟩
  | some d =>
    match d.validate c.input with
    | .error detail => ⟨c.id, c.toolName, .errorInvalidInput detail⟩
    | .ok _ =>
      if cancelled then ⟨c.id, c.toolName, .errorCancelled⟩
      else
        match d.execute c.input with
        | .ok v => ⟨c.id, c.toolName, .ok v⟩
        | .error e => ⟨c.id, c.toolName, .errorExecution e⟩

/-- Modelled from the spec: the Tool Invocation Engine validates and
executes a batch of Tool Calls produced by a single Step, returning Tool
Results whose order matches the input call order. -/
def invoke (defs : List ToolDefinition) (cancelled : Bool) (calls : List ToolCall) : List ToolResult :=
  calls.map (invokeOne defs cancelled)

/-- Modelled from the spec: concurrent execution of a step's Tool Calls is
an execution order given by a permutation of the call indices; each executed
call is tagged with its input index so results can be re-sorted. -/
def executeInOrder (defs : List ToolDefinition) (cancelled : Bool)
    (calls : List ToolCall) (perm : List Nat) : List (Nat × ToolResult) :=
  perm.filterMap (fun j => (calls[j]?).map (fun c => (j, invokeOne defs cancelled c)))

/-- Modelled from the spec: results of a concurrently executed batch are
re-sorted to match the input call order before being folded into history. -/
def resortToCallOrder (n : Nat) (executed : List (Nat × ToolResult)) : List (Option ToolResult) :=
  (List.range n).map (fun i => (executed.find? (fun p => p.1 == i)).map Prod.snd)

/-- Modelled from the spec: the role of one conversation turn. -/
inductive Role where
  | user
  | assistant
  | system
  | tool
deriving DecidableEq, Repr

/-- Modelled from the spec: one content part of a Message — text, a tool
call, or a tool result. -/
inductive ContentPart where
  | text (s : String)
  | toolCallPart (id : Nat) (toolName : String) (input : ToolInput)
  | toolResultPart (id : Nat) (toolName : String) (outcome : ToolOutcome)
deriving DecidableEq, Repr

/-- Modelled from the spec: a Message is one turn in the conversation, a
role together with an ordered sequence of content parts; immutable once
appended to the history. -/
structure Message where
  role : Role
  content : List ContentPart
deriving DecidableEq, Repr

/-- Modelled from the spec: the finish reason reported by the backend, a
fixed enumeration. -/
inductive FinishReason where
  | stop
  | length
  | toolCalls
  | contentFilter
  | error
  | other
deriving DecidableEq, Repr

/-- Modelled from the spec: usage counters reported by the backend —
non-negative input/output token counts. -/
structure Usage where
  inputTokens : Nat
  outputTokens : Nat
deriving DecidableEq, Repr

/-- Modelled from the spec: the output of one backend generation request —
streamed text deltas (each tagged with its content block), zero or more
tool-call requests, a finish reason and usage counters. -/
structure BackendOutput where
  textDeltas : List (Nat × String)
  toolCalls : List ToolCall
  finishReason : FinishReason
  usage : Usage
deriving DecidableEq, Repr

/-- Modelled from the spec: one completed Step — the backend output of the
request/response cycle plus the Tool Results produced for its tool calls. -/
structure Step where
  output : BackendOutput
  toolResults : List ToolResult
deriving DecidableEq, Repr

/-- Modelled from the spec: the assistant message appended to history for a
step's backend output (its text followed by its tool-call parts). -/
def assistantMessage (out : BackendOutput) : Message :=
  ⟨Role.assistant,
    ContentPart.text (String.join (out.textDeltas.map Prod.snd))
      :: out.toolCalls.map (fun c => ContentPart.toolCallPart c.id c.toolName c.input)⟩

/-- Modelled from the spec: the tool message recording a step's Tool
Results in history, in call order. -/
def toolMessage (results : List ToolResult) : Message :=
  ⟨Role.tool, results.map (fun r => ContentPart.toolResultPart r.callId r.toolName r.outcome)⟩

/-- Modelled from the spec: folding one completed step into the
conversation history — the assistant message is appended, followed by a
tool message carrying the step's Tool Results whenever the step requested
tool calls. -/
def foldStep (history : List Message) (out : BackendOutput) (results : List ToolResult) :
    List Message :=
  if out.toolCalls.isEmpty then history ++ [assistantMessage out]
  else history ++ [assistantMessage out, toolMessage results]

/-- Number of tool-result content parts appearing in one message. -/
def countToolResultParts (m : Message) : Nat :=
  (m.content.filter (fun p =>
    match p with
    | ContentPart.toolResultPart _ _ _ => true
    | _ => false)).length

/-- Number of tool-result content parts appearing in a history. -/
def countToolResults (history : List Message) : Nat :=
  (history.map countToolResultParts).sum

/-- Modelled from the spec: the terminal state of a Run's stepping loop —
either finished (final text, or a satisfied stop condition) carrying the
completed steps, the final history and the number of backend calls issued,
or out of fuel (the loop budget of this model was exhausted). -/
inductive RunResult where
  | finished (steps : List Step) (history : List Message) (backendCalls : Nat)
  | outOfFuel (steps : List Step) (history : List Message) (backendCalls : Nat)
deriving DecidableEq, Repr

/-- Modelled from the spec: the Step Controller loop. Each iteration issues
one backend call; if the output has no tool calls the Run ends successfully
regardless of the stop condition; otherwise all tool calls are dispatched
to the Tool Invocation Engine, the results are folded into history, and
only then is the stop condition evaluated over the completed steps — when
it holds the Run ends with no further backend call; otherwise the loop
continues. Fuel bounds the recursion. -/
def runStepsAux (backend : List Message → BackendOutput) (defs : List ToolDefinition)
    (stopWhen : List Step → Bool) :
    Nat → List Message → List Step → Nat → RunResult
  | 0, history, steps, calls => RunResult.outOfFuel steps history calls
  | fuel + 1, history, steps, calls =>
    let out := backend history
    let results := invoke defs false out.toolCalls
    let steps' := steps ++ [⟨out, results⟩]
    let history' := foldStep history out results
    if out.toolCalls.isEmpty then RunResult.finished steps' history' (calls + 1)
    else if stopWhen steps' then RunResult.finished steps' history' (calls + 1)
    else runStepsAux backend defs stopWhen fuel history' steps' (calls + 1)

/-- Modelled from the spec: `runSteps(initialMessages, toolDefinitions,
stopCondition, cancellationToken) → terminal Run state`, started with no
completed steps and no backend calls issued. -/
def runSteps (backend : List Message → BackendOutput) (defs : List ToolDefinition)
    (stopWhen : List Step → Bool) (fuel : Nat) (initialMessages : List Message) : RunResult :=
  runStepsAux backend defs stopWhen fuel initialMessages [] 0

/-- Modelled from the spec: the step-count stop condition — stop when
`steps.length >= k`. -/
def stepCountIs (k : Nat) : List Step → Bool :=
  fun steps => decide (k ≤ steps.length)

/-- Folding a sequence of completed steps into a history, one step at a
time. -/
def foldSteps (history : List Message) (steps : List Step) : List Message :=
  steps.foldl (fun h st => foldStep h st.output st.toolResults) history

/-- Modelled from the spec: one Stream Event — an incremental unit of a
Run's observable output; events produced while processing step k carry the
step index k, terminal events carry none. -/
inductive StreamEvent where
  | stepStart (step : Nat)
  | textDelta (step : Nat) (block : Nat) (delta : String)
  | toolCallEvt (step : Nat) (id : Nat) (toolName : String)
  | toolResultEvt (step : Nat) (id : Nat) (outcome : ToolOutcome)
  | stepFinish (step : Nat)
  | runFinish
  | runCancelled
  | errorEvt (msg : String)
deriving DecidableEq, Repr

/-- The step a Stream Event belongs to, when it belongs to one. -/
def eventStep : StreamEvent → Option Nat
  | StreamEvent.stepStart k => some k
  | StreamEvent.textDelta k _ _ => some k
  | StreamEvent.toolCallEvt k _ _ => some k
  | StreamEvent.toolResultEvt k _ _ => some k
  | StreamEvent.stepFinish k => some k
  | StreamEvent.runFinish => none
  | StreamEvent.runCancelled => none
  | StreamEvent.errorEvt _ => none

/-- Modelled from the spec: the Stream Events emitted while processing one
step — step-start, then the backend's text deltas in the order the backend
produced them, then tool-call and tool-result events, then step-finish. -/
def stepEvents (k : Nat) (out : BackendOutput) (results : List ToolResult) : List StreamEvent :=
  StreamEvent.stepStart k
    :: out.textDeltas.map (fun p => StreamEvent.textDelta k p.1 p.2)
    ++ out.toolCalls.map (fun c => StreamEvent.toolCallEvt k c.id c.toolName)
    ++ results.map (fun r => StreamEvent.toolResultEvt k r.callId r.outcome)
    ++ [StreamEvent.stepFinish k]

/-- Events of a list of steps, numbering steps from k upward, in step
order. -/
def runEventsAux (k : Nat) : List Step → List StreamEvent
  | [] => []
  | st :: rest => stepEvents k st.output st.toolResults ++ runEventsAux (k + 1) rest

/-- Modelled from the spec: the full ordered Stream Event sequence of a
completed Run — all events of step 0, then of step 1, and so on, closed by
the terminal run-finish event. -/
def runEvents (steps : List Step) : List StreamEvent :=
  runEventsAux 0 steps ++ [StreamEvent.runFinish]

/-- The text carried by an event when it is a text delta of content block
b. -/
def deltaProj (b : Nat) : StreamEvent → Option String
  | StreamEvent.textDelta _ b' s => if b' == b then some s else none
  | _ => none

/-- The text deltas of content block b occurring in an event list, in
emission order. -/
def deltasOfBlock (b : Nat) (events : List StreamEvent) : List String :=
  events.filterMap (deltaProj b)

/-- The step-ordering relation on Stream Events: whenever both events
belong to steps, the first belongs to an earlier-or-equal step. -/
def stepTagLE (e1 e2 : StreamEvent) : Prop :=
  ∀ a b, eventStep e1 = some a → eventStep e2 = some b → a ≤ b

/-- Modelled from the spec: an operation on the Stream Multiplexer — the
producer publishes an event to every attached subscriber, or a new
subscriber attaches. -/
inductive MuxOp where
  | publishEvt (e : StreamEvent)
  | subscribeSub
deriving DecidableEq, Repr

/-- Modelled from the spec: the Stream Multiplexer state — the full
produced event sequence, the attachment point of each subscriber (how many
events had been produced when it attached), and each subscriber's own
unbounded queue of pending events. -/
structure MuxState where
  produced : List StreamEvent
  attach : List Nat
  queues : List (List StreamEvent)
deriving DecidableEq, Repr

/-- Modelled from the spec: publishing appends the event to the produced
sequence and to every subscriber's queue; subscribing adds a subscriber
with an empty queue whose attachment point is the current production
length. -/
def muxStep (s : MuxState) : MuxOp → MuxState
  | MuxOp.publishEvt e =>
    { produced := s.produced ++ [e], attach := s.attach,
      queues := s.queues.map (fun q => q ++ [e]) }
  | MuxOp.subscribeSub =>
    { produced := s.produced, attach := s.attach ++ [s.produced.length],
      queues := s.queues ++ [[]] }

/-- The empty multiplexer: nothing produced, no subscribers. -/
def muxInit : MuxState := ⟨[], [], []⟩

/-- Running a sequence of multiplexer operations from the empty state. -/
def muxRun (ops : List MuxOp) : MuxState :=
  ops.foldl muxStep muxInit

/-- The multiplexer invariant: attachment points never exceed production,
there is one queue per subscriber, and each queue is exactly the suffix of
the produced sequence from the subscriber's attachment point. -/
def MuxInv (s : MuxState) : Prop :=
  s.attach.length = s.queues.length
  ∧ (∀ (i a : Nat), s.attach[i]? = some a → a ≤ s.produced.length)
  ∧ (∀ (i a : Nat) (q : List StreamEvent),
      s.attach[i]? = some a → s.queues[i]? = some q → q = s.produced.drop a)

/-- Modelled from the spec: the distinct terminal outcomes of a Run. -/
inductive RunTerminal where
  | success
  | failure
  | cancelledRun
deriving DecidableEq, Repr

/-- Modelled from the spec: the externally observable state of a Run — its
terminal outcome once reached, its cancellation token, and its stream
multiplexer. -/
structure RunState where
  terminal : Option RunTerminal
  tokenCancelled : Bool
  mux : MuxState
deriving DecidableEq, Repr

/-- Modelled from the spec: cancelling a Run's cancellation token — if the
Run already reached a terminal state this is a no-op; otherwise the token
transitions to cancelled, the Run reaches the cancelled terminal state, and
the terminal cancellation event is flushed through the multiplexer. -/
def cancelRun (r : RunState) : RunState :=
  if r.terminal.isSome then r
  else
    { terminal := some RunTerminal.cancelledRun, tokenCancelled := true,
      mux := muxStep r.mux (MuxOp.publishEvt StreamEvent.runCancelled) }

/-- Modelled from the spec: response metadata reported by the backend for
one generation (the concrete LanguageModelResponseMetadata type is not
under src). -/
structure LanguageModelResponseMetadata where
  id : String
  timestamp : Nat
  modelId : String
deriving DecidableEq, Repr

/-- The error name constant of no-object-generated-error.ts. -/
def noObjectGeneratedErrorName : String := "AI_NoObjectGeneratedError"

/-- The marker string of no-object-generated-error.ts:
`vercel.ai.error.` followed by the error name. -/
def noObjectGeneratedMarker : String := "vercel.ai.error." ++ noObjectGeneratedErrorName

/-- The NoObjectGeneratedError of no-object-generated-error.ts: an
AISDKError (name, message, optional cause) carrying the raw text the model
produced (when any), the response metadata and the usage counters. -/
structure NoObjectGeneratedError where
  name : String
  message : String
  cause : Option String
  text : Option String
  response : LanguageModelResponseMetadata
  usage : Usage
deriving DecidableEq, Repr

/-- The argument record of the NoObjectGeneratedError constructor: optional
message, cause and text, required response and usage. -/
structure NoObjectGeneratedErrorArgs where
  message : Option String
  cause : Option String
  text : Option String
  response : LanguageModelResponseMetadata
  usage : Usage
deriving DecidableEq, Repr

/-- The NoObjectGeneratedError constructor: the message defaults to
"No object generated." when none is supplied; name is the fixed error
name; text, response and usage are stored as given. -/
def NoObjectGeneratedError.ofArgs (a : NoObjectGeneratedErrorArgs) : NoObjectGeneratedError :=
  { name := noObjectGeneratedErrorName,
    message := a.message.getD "No object generated.",
    cause := a.cause,
    text := a.text,
    response := a.response,
    usage := a.usage }

/-- An error value as seen by isInstance: either an actual
NoObjectGeneratedError (whose construction installs the class marker and
the AISDKError base marker), or some other value carrying an arbitrary set
of markers. -/
inductive ErrorValue where
  | noObjectGenerated (e : NoObjectGeneratedError)
  | otherError (markers : List String)

/-- The marker symbols present on an error value: constructing a
NoObjectGeneratedError installs the AISDKError base marker and the class
marker used by isInstance. -/
def ErrorValue.markersOf : ErrorValue → List String
  | ErrorValue.noObjectGenerated _ => ["vercel.ai.error", noObjectGeneratedMarker]
  | ErrorValue.otherError ms => ms

/-- AISDKError.hasMarker: an error value has a marker iff the marker symbol
is present on it. -/
def hasMarker (e : ErrorValue) (m : String) : Bool :=
  e.markersOf.contains m

/-- NoObjectGeneratedError.isInstance from no-object-generated-error.ts:
checks the class marker via AISDKError.hasMarker. -/
def NoObjectGeneratedError.isInstance (e : ErrorValue) : Bool :=
  hasMarker e noObjectGeneratedMarker

/-- Modelled from the spec: finalization of a structured-generation Run —
the backend completed without error producing raw text; if the text cannot
be parsed/validated against the caller's required structure, the Run
terminates fatally with a NoObjectGeneratedError carrying that raw text,
the response metadata and the usage observed at failure time. -/
def finalizeObject {α : Type} (parse : String → Option α) (text : String)
    (response : LanguageModelResponseMetadata) (usage : Usage) :
    Except NoObjectGeneratedError α :=
  match parse text with
  | some v => Except.ok v
  | none =>
    Except.error (NoObjectGeneratedError.ofArgs
      ⟨none, none, some text, response, usage⟩)

/-- A demonstration tool call used by concrete witnesses. -/
def demoCall : ToolCall := ⟨0, "double", ToolInput.num 21⟩

/-- A demonstration backend that always requests one tool call and never
produces final text. -/
def demoBackendLoop : List Message → BackendOutput :=
  fun _ => ⟨[], [demoCall], FinishReason.toolCalls, ⟨1, 1⟩⟩

/-- A demonstration backend that immediately produces final text with no
tool calls. -/
def demoBackendText : List Message → BackendOutput :=
  fun _ => ⟨[(0, "42")], [], FinishReason.stop, ⟨1, 1⟩⟩

/-- A demonstration validator accepting numeric input only. -/
def demoValidate : ToolInput → Except String Unit :=
  fun inp =>
    match inp with
    | ToolInput.num _ => Except.ok ()
    | ToolInput.str _ => Except.error "expected a number"

/-- A demonstration executor that doubles its numeric input. -/
def demoExec : ToolInput → Except String ToolInput :=
  fun inp =>
    match inp with
    | ToolInput.num n => Except.ok (ToolInput.num (2 * n))
    | ToolInput.str _ => Except.error "expected a number"

/-- A second demonstration executor, differing from demoExec. -/
def demoExecOther : ToolInput → Except String ToolInput :=
  fun _ => Except.error "not invoked"

/-- A demonstration tool registry with a single tool named double. -/
def demoDefs : List ToolDefinition := [⟨"double", demoValidate, demoExec⟩]

/-- The demonstration registry with the executor replaced, same shape. -/
def demoDefsOther : List ToolDefinition := [⟨"double", demoValidate, demoExecOther⟩]

/-- A demonstration tool call naming a tool absent from the registry. -/
def demoMissingCall : ToolCall := ⟨1, "nosuch", ToolInput.num 0⟩

/-- A demonstration tool call with an invalid (non-numeric) input. -/
def demoInvalidCall : ToolCall := ⟨2, "double", ToolInput.str "x"⟩

/-- A demonstration backend emitting the unknown-tool and invalid-input
calls in one step. -/
def demoBackendErrors : List Message → BackendOutput :=
  fun _ => ⟨[], [demoMissingCall, demoInvalidCall], FinishReason.toolCalls, ⟨1, 1⟩⟩

theorem invokeOne_callId (defs : List ToolDefinition) (cancelled : Bool) (c : ToolCall) :
    (invokeOne defs cancelled c).callId = c.id := by
  unfold invokeOne
  cases h : lookupTool defs c.toolName with
  | none => rfl
  | some d =>
    cases hv : d.validate c.input with
    | error detail => simp [hv]
    | ok u =>
      cases cancelled with
      | true => simp [hv]
      | false =>
        cases he : d.execute c.input with
        | ok v => simp [hv, he]
        | error e => simp [hv, he]

theorem invoke_length (defs : List ToolDefinition) (cancelled : Bool) (calls : List ToolCall) :
    (invoke defs cancelled calls).length = calls.length := by
  simp [invoke]

theorem invoke_getElem?_callId (defs : List ToolDefinition) (cancelled : Bool)
    (calls : List ToolCall) (i : Nat) :
    ((invoke defs cancelled calls)[i]?).map ToolResult.callId
      = (calls[i]?).map ToolCall.id := by
  cases h : calls[i]? with
  | none => simp [invoke, List.getElem?_map, h]
  | some c => simp [invoke, List.getElem?_map, h, invokeOne_callId]

theorem countToolResults_append (h1 h2 : List Message) :
    countToolResults (h1 ++ h2) = countToolResults h1 + countToolResults h2 := by
  simp [countToolResults]

theorem countToolResultParts_assistantMessage (out : BackendOutput) :
    countToolResultParts (assistantMessage out) = 0 := by
  simp [countToolResultParts, assistantMessage, List.filter_cons, List.filter_map]

theorem countToolResultParts_toolMessage (results : List ToolResult) :
    countToolResultParts (toolMessage results) = results.length := by
  simp [countToolResultParts, toolMessage, List.filter_map]

theorem countToolResults_foldStep (history : List Message) (out : BackendOutput)
    (results : List ToolResult) :
    countToolResults (foldStep history out results)
      = countToolResults history
        + (if out.toolCalls.isEmpty then 0 else results.length) := by
  unfold foldStep
  cases h : out.toolCalls.isEmpty with
  | true =>
    simp [countToolResults_append, countToolResults,
      countToolResultParts_assistantMessage]
  | false =>
    simp [countToolResults_append, countToolResults,
      countToolResultParts_assistantMessage, countToolResultParts_toolMessage]

theorem foldSteps_nil (history : List Message) : foldSteps history [] = history := rfl

theorem foldSteps_cons (history : List Message) (st : Step) (steps : List Step) :
    foldSteps history (st :: steps)
      = foldSteps (foldStep history st.output st.toolResults) steps := rfl

/-- Under a backend that always returns tool calls, the loop driven by
`stepCountIs k` finishes after exactly the missing number of steps, every
produced step carries the Tool Results of its calls, and the final history
is the fold of the produced steps. -/
theorem runStepsAux_stepCountIs (backend : List Message → BackendOutput)
    (defs : List ToolDefinition) (k : Nat)
    (hb : ∀ h, (backend h).toolCalls ≠ []) :
    ∀ fuel (steps : List Step) (history : List Message) (calls : Nat),
      steps.length < k → k ≤ fuel + steps.length →
      ∃ T : List Step,
        runStepsAux backend defs (stepCountIs k) fuel history steps calls
          = RunResult.finished (steps ++ T) (foldSteps history T) (calls + T.length)
        ∧ steps.length + T.length = k
        ∧ ∀ st ∈ T, st.toolResults = invoke defs false st.output.toolCalls
            ∧ st.output.toolCalls ≠ [] := by
  intro fuel
  induction fuel with
  | zero =>
    intro steps history calls hlt hle
    omega
  | succ fuel ih =>
    intro steps history calls hlt hle
    have hnonempty : (backend history).toolCalls ≠ [] := hb history
    have hempty : (backend history).toolCalls.isEmpty = false := by
      cases h : (backend history).toolCalls with
      | nil => exact absurd h hnonempty
      | cons a l => rfl
    by_cases hstop : k ≤ steps.length + 1
    · have hk : steps.length + 1 = k := by omega
      refine ⟨[⟨backend history, invoke defs false (backend history).toolCalls⟩], ?_, ?_, ?_⟩
      · have hcond : stepCountIs k (steps ++ [⟨backend history, invoke defs false (backend history).toolCalls⟩]) = true := by
          simp [stepCountIs]
          omega
        simp [runStepsAux, hempty, hcond, foldSteps_cons, foldSteps_nil]
      · simpa using hk
      · intro st hst
        simp at hst
        subst hst
        exact ⟨rfl, hnonempty⟩
    · have hcond : stepCountIs k (steps ++ [⟨backend history, invoke defs false (backend history).toolCalls⟩]) = false := by
        simp [stepCountIs]
        omega
      obtain ⟨T, hrun, hlen, hall⟩ :=
        ih (steps ++ [⟨backend history, invoke defs false (backend history).toolCalls⟩])
          (foldStep history (backend history) (invoke defs false (backend history).toolCalls))
          (calls + 1)
          (by simp; omega) (by simp; omega)
      refine ⟨⟨backend history, invoke defs false (backend history).toolCalls⟩ :: T, ?_, ?_, ?_⟩
      · have : runStepsAux backend defs (stepCountIs k) (fuel + 1) history steps calls
            = runStepsAux backend defs (stepCountIs k) fuel
                (foldStep history (backend history) (invoke defs false (backend history).toolCalls))
                (steps ++ [⟨backend history, invoke defs false (backend history).toolCalls⟩])
                (calls + 1) := by
          simp [runStepsAux, hempty, hcond]
        rw [this, hrun]
        simp [foldSteps_cons]
        omega
      · simp at hlen ⊢
        omega
      · intro st hst
        cases hst with
        | head => exact ⟨rfl, hnonempty⟩
        | tail _ hmem => exact hall st hmem

/-- C1: for every Run whose stop condition is stepCountIs(k) (k at least
one, enough fuel) and whose backend response at every step contains tool
calls and never final text, the Step Controller terminates the Run after
exactly k completed steps, the tool calls of every step — the final k-th
step included — are executed by the Tool Invocation Engine and their Tool
Results recorded in the folded history, and exactly k backend calls are
issued, so no further backend call happens after the stop condition
holds. -/
theorem stepCountIs_terminates_run (backend : List Message → BackendOutput)
    (defs : List ToolDefinition) (init : List Message) (k fuel : Nat)
    (hk : 1 ≤ k) (hfuel : k ≤ fuel)
    (hb : ∀ h, (backend h).toolCalls ≠ []) :
    ∃ T : List Step,
      runSteps backend defs (stepCountIs k) fuel init
        = RunResult.finished T (foldSteps init T) T.length
      ∧ T.length = k
      ∧ ∀ st ∈ T, st.toolResults = invoke defs false st.output.toolCalls
          ∧ st.output.toolCalls ≠ [] := by
  obtain ⟨T, hrun, hlen, hall⟩ :=
    runStepsAux_stepCountIs backend defs k hb fuel [] init 0
      (by simpa using hk) (by simpa using hfuel)
  exact ⟨T, by simpa [runSteps] using hrun, by simpa using hlen, hall⟩

theorem stepCountIs_terminates_run_witness :
    (1 ≤ 2 ∧ 2 ≤ 3 ∧ ∀ h, (demoBackendLoop h).toolCalls ≠ [])
    ∧ ∃ T : List Step,
        runSteps demoBackendLoop demoDefs (stepCountIs 2) 3 []
          = RunResult.finished T (foldSteps [] T) T.length
        ∧ T.length = 2
        ∧ ∀ st ∈ T, st.toolResults = invoke demoDefs false st.output.toolCalls
            ∧ st.output.toolCalls ≠ [] :=
  ⟨⟨by decide, by decide, fun _ => by simp [demoBackendLoop]⟩,
    stepCountIs_terminates_run demoBackendLoop demoDefs [] 2 3
      (by decide) (by decide) (fun _ => by simp [demoBackendLoop])⟩

/-- C2: for every Run and every reachable loop state, if the backend output
of the next step is final text containing no tool calls, then runSteps ends
the Run successfully at that step — for every stop condition whatsoever. -/
theorem final_text_ends_run (backend : List Message → BackendOutput)
    (defs : List ToolDefinition) (stopWhen : List Step → Bool) (fuel calls : Nat)
    (history : List Message) (steps : List Step)
    (h : (backend history).toolCalls = []) :
    runStepsAux backend defs stopWhen (fuel + 1) history steps calls
      = RunResult.finished (steps ++ [⟨backend history, []⟩])
          (history ++ [assistantMessage (backend history)]) (calls + 1) := by
  simp [runStepsAux, h, invoke, foldStep]

theorem final_text_ends_run_witness :
    ((demoBackendText []).toolCalls = [])
    ∧ runStepsAux demoBackendText demoDefs (fun _ => false) 1 [] [] 0
        = RunResult.finished [⟨demoBackendText [], []⟩]
            ([] ++ [assistantMessage (demoBackendText [])]) 1 :=
  ⟨rfl, final_text_ends_run demoBackendText demoDefs (fun _ => false) 0 0 [] [] rfl⟩

/-- C3: for every completed step containing m Tool Calls (with identifiers
unique within the step, per the data model), the history after folding in
that step contains exactly m Tool Results for that step, the engine returns
one result per call, the i-th result is correlated to the i-th call by its
call identifier, and the correlation is unique: two calls sharing an
identifier are at the same position. Tool failures only change outcomes,
never the count, so this holds regardless of individual tool failure. -/
theorem tool_result_completeness (defs : List ToolDefinition) (cancelled : Bool)
    (history : List Message) (out : BackendOutput) (i j : Nat) (ci cj : ToolCall)
    (hnodup : (out.toolCalls.map ToolCall.id).Nodup)
    (hi : out.toolCalls[i]? = some ci) (hj : out.toolCalls[j]? = some cj)
    (hid : ci.id = cj.id) :
    countToolResults (foldStep history out (invoke defs cancelled out.toolCalls))
      = countToolResults history + out.toolCalls.length
    ∧ (invoke defs cancelled out.toolCalls).length = out.toolCalls.length
    ∧ (∀ (n : Nat), ((invoke defs cancelled out.toolCalls)[n]?).map ToolResult.callId
          = (out.toolCalls[n]?).map ToolCall.id)
    ∧ i = j := by
  refine ⟨?_, invoke_length _ _ _, fun n => invoke_getElem?_callId _ _ _ n, ?_⟩
  · rw [countToolResults_foldStep]
    cases hE : out.toolCalls.isEmpty with
    | true =>
      have hnil : out.toolCalls = [] := by simpa using hE
      simp [hnil]
    | false => simp [invoke_length]
  · have hilen : i < (out.toolCalls.map ToolCall.id).length := by
      rw [List.length_map]
      exact (List.getElem?_eq_some_iff.mp hi).1
    apply List.getElem?_inj hilen hnodup
    rw [List.getElem?_map, List.getElem?_map, hi, hj]
    simp [hid]

theorem tool_result_completeness_witness :
    ((((demoBackendErrors []).toolCalls.map ToolCall.id).Nodup)
      ∧ (demoBackendErrors []).toolCalls[0]? = some demoMissingCall)
    ∧ (countToolResults (foldStep [] (demoBackendErrors [])
          (invoke demoDefs false (demoBackendErrors []).toolCalls))
        = countToolResults [] + (demoBackendErrors []).toolCalls.length
      ∧ (invoke demoDefs false (demoBackendErrors []).toolCalls).length
          = (demoBackendErrors []).toolCalls.length
      ∧ (∀ (n : Nat), ((invoke demoDefs false (demoBackendErrors []).toolCalls)[n]?).map ToolResult.callId
            = ((demoBackendErrors []).toolCalls[n]?).map ToolCall.id)
      ∧ (0 : Nat) = 0) :=
  ⟨⟨by decide, by decide⟩,
    tool_result_completeness demoDefs false [] (demoBackendErrors []) 0 0
      demoMissingCall demoMissingCall (by decide) (by decide) (by decide) rfl⟩

/-- Lookup agrees across registries of the same shape: lookup only depends
on tool names, and a found definition matches a found definition with the
same name and validator. -/
theorem lookupTool_sameShape (defs defs' : List ToolDefinition)
    (hshape : List.Forall₂ sameShape defs defs') (nm : String) :
    (lookupTool defs nm = none → lookupTool defs' nm = none)
    ∧ ∀ d, lookupTool defs nm = some d →
        ∃ d', lookupTool defs' nm = some d' ∧ d'.name = d.name
          ∧ d'.validate = d.validate := by
  induction hshape with
  | nil => exact ⟨fun _ => rfl, fun d h => by simp [lookupTool] at h⟩
  | @cons d1 d2 l1 l2 hd htl ih =>
    obtain ⟨hname, hvalid⟩ := hd
    cases hn : d1.name == nm with
    | true =>
      have hn2 : (d2.name == nm) = true := by
        rw [← hname]
        exact hn
      constructor
      · intro h
        simp [lookupTool, List.find?, hn] at h
      · intro d h
        simp only [lookupTool, List.find?, hn] at h
        refine ⟨d2, ?_, ?_, ?_⟩
        · simp only [lookupTool, List.find?, hn2]
        · rw [← Option.some_inj.mp h, hname]
        · rw [← Option.some_inj.mp h, hvalid]
    | false =>
      have hn2 : (d2.name == nm) = false := by
        rw [← hname]
        exact hn
      constructor
      · intro h
        simp only [lookupTool, List.find?, hn] at h
        simp only [lookupTool, List.find?, hn2]
        exact ih.1 h
      · intro d h
        simp only [lookupTool, List.find?, hn] at h
        obtain ⟨d', hd', hthe⟩ := ih.2 d h
        refine ⟨d', ?_, hthe⟩
        simp only [lookupTool, List.find?, hn2]
        exact hd'

/-- C4: a Tool Call naming a tool absent from the definitions yields an
error Tool Result identifying the unknown tool; a call whose input fails
the matching definition's input-shape validation yields an error Tool
Result identifying the invalid input with the failure detail, without the
executor being invoked (the result is unchanged under any registry of the
same names and validators but different executors); and a step producing
such calls does not terminate the Run: the error results are folded into
history and the controller proceeds to the next backend call. -/
theorem tool_errors_recovered_locally
    (defs defs' : List ToolDefinition) (cancelled : Bool)
    (c c' : ToolCall) (d : ToolDefinition) (detail : String)
    (backend : List Message → BackendOutput) (stopWhen : List Step → Bool)
    (fuel calls : Nat) (history : List Message) (steps : List Step)
    (hmiss : lookupTool defs c.toolName = none)
    (hfound : lookupTool defs c'.toolName = some d)
    (hval : d.validate c'.input = Except.error detail)
    (hshape : List.Forall₂ sameShape defs defs')
    (hout : (backend history).toolCalls = [c, c'])
    (hstop : stopWhen (steps ++ [⟨backend history, invoke defs false (backend history).toolCalls⟩])
        = false) :
    invokeOne defs cancelled c = ⟨c.id, c.toolName, ToolOutcome.errorUnknownTool⟩
    ∧ invokeOne defs cancelled c' = ⟨c'.id, c'.toolName, ToolOutcome.errorInvalidInput detail⟩
    ∧ invokeOne defs' cancelled c' = invokeOne defs cancelled c'
    ∧ runStepsAux backend defs stopWhen (fuel + 1) history steps calls
        = runStepsAux backend defs stopWhen fuel
            (foldStep history (backend history) (invoke defs false (backend history).toolCalls))
            (steps ++ [⟨backend history, invoke defs false (backend history).toolCalls⟩])
            (calls + 1) := by
  refine ⟨?_, ?_, ?_, ?_⟩
  · simp [invokeOne, hmiss]
  · simp [invokeOne, hfound, hval]
  · obtain ⟨d', hd', _, hvalid⟩ := (lookupTool_sameShape defs defs' hshape c'.toolName).2 d hfound
    have hval' : d'.validate c'.input = Except.error detail := by
      rw [hvalid]
      exact hval
    simp [invokeOne, hfound, hval, hd', hval']
  · have hne : (backend history).toolCalls.isEmpty = false := by
      rw [hout]
      rfl
    simp [runStepsAux, hne, hstop]

theorem tool_errors_recovered_locally_witness :
    (lookupTool demoDefs demoMissingCall.toolName = none
      ∧ lookupTool demoDefs demoInvalidCall.toolName
          = some ⟨"double", demoValidate, demoExec⟩
      ∧ demoValidate demoInvalidCall.input = Except.error "expected a number"
      ∧ (demoBackendErrors []).toolCalls = [demoMissingCall, demoInvalidCall])
    ∧ (invokeOne demoDefs false demoMissingCall
        = ⟨demoMissingCall.id, demoMissingCall.toolName, ToolOutcome.errorUnknownTool⟩
      ∧ invokeOne demoDefs false demoInvalidCall
        = ⟨demoInvalidCall.id, demoInvalidCall.toolName,
            ToolOutcome.errorInvalidInput "expected a number"⟩
      ∧ invokeOne demoDefsOther false demoInvalidCall = invokeOne demoDefs false demoInvalidCall
      ∧ runStepsAux demoBackendErrors demoDefs (fun _ => false) 1 [] [] 0
          = runStepsAux demoBackendErrors demoDefs (fun _ => false) 0
              (foldStep [] (demoBackendErrors [])
                (invoke demoDefs false (demoBackendErrors []).toolCalls))
              ([] ++ [⟨demoBackendErrors [],
                invoke demoDefs false (demoBackendErrors []).toolCalls⟩])
              1) :=
  ⟨⟨rfl, rfl, rfl, rfl⟩,
    tool_errors_recovered_locally demoDefs demoDefsOther false
      demoMissingCall demoInvalidCall ⟨"double", demoValidate, demoExec⟩
      "expected a number" demoBackendErrors (fun _ => false) 0 0 [] []
      rfl rfl rfl (List.Forall₂.cons ⟨rfl, rfl⟩ List.Forall₂.nil) rfl rfl⟩

/-- Finding the result tagged with an input index i in an execution trace:
whatever the execution order, the entry for i is the engine's result for
the i-th call. -/
theorem executeInOrder_find? (defs : List ToolDefinition) (cancelled : Bool)
    (calls : List ToolCall) :
    ∀ (perm : List Nat) (i : Nat) (c : ToolCall), i ∈ perm → calls[i]? = some c →
      (executeInOrder defs cancelled calls perm).find? (fun p => p.1 == i)
        = some (i, invokeOne defs cancelled c) := by
  intro perm
  induction perm with
  | nil =>
    intro i c hmem _
    simp at hmem
  | cons j rest ih =>
    intro i c hmem hc
    by_cases hji : j = i
    · subst hji
      have hhead : executeInOrder defs cancelled calls (j :: rest)
          = (j, invokeOne defs cancelled c) :: executeInOrder defs cancelled calls rest := by
        simp [executeInOrder, List.filterMap_cons, hc]
      rw [hhead]
      rw [List.find?_cons_of_pos _ (by simp)]
    · have hmem' : i ∈ rest := by
        cases List.mem_cons.mp hmem with
        | inl h => exact absurd h.symm hji
        | inr h => exact h
      cases hcj : calls[j]? with
      | none =>
        have hskip : executeInOrder defs cancelled calls (j :: rest)
            = executeInOrder defs cancelled calls rest := by
          simp [executeInOrder, List.filterMap_cons, hcj]
        rw [hskip]
        exact ih i c hmem' hc
      | some cj =>
        have hhead : executeInOrder defs cancelled calls (j :: rest)
            = (j, invokeOne defs cancelled cj) :: executeInOrder defs cancelled calls rest := by
          simp [executeInOrder, List.filterMap_cons, hcj]
        rw [hhead]
        rw [List.find?_cons_of_neg _ (by simp [hji])]
        exact ih i c hmem' hc

/-- C5: for every batch of Tool Calls invoked within one step and every
interleaved execution order (any permutation of the call indices), the
results re-sorted to input call order are exactly the engine's results in
call order — the i-th result corresponds to the i-th input Tool Call, as
witnessed by its call identifier. -/
theorem concurrent_results_sorted_to_call_order (defs : List ToolDefinition)
    (cancelled : Bool) (calls : List ToolCall) (perm : List Nat)
    (hperm : perm.Perm (List.range calls.length)) :
    resortToCallOrder calls.length (executeInOrder defs cancelled calls perm)
      = (invoke defs cancelled calls).map some
    ∧ ∀ (n : Nat), ((invoke defs cancelled calls)[n]?).map ToolResult.callId
        = (calls[n]?).map ToolCall.id := by
  refine ⟨?_, fun n => invoke_getElem?_callId _ _ _ n⟩
  apply List.ext_getElem?
  intro n
  by_cases hn : n < calls.length
  · have hmem : n ∈ perm := hperm.mem_iff.mpr (List.mem_range.mpr hn)
    have hc : calls[n]? = some calls[n] := by simp [hn]
    rw [resortToCallOrder]
    rw [List.getElem?_map]
    rw [List.getElem?_range hn]
    rw [invoke, List.getElem?_map, List.getElem?_map, hc]
    simp [executeInOrder_find? defs cancelled calls perm n calls[n] hmem hc]
  · have h1 : calls.length ≤ n := Nat.le_of_not_lt hn
    rw [resortToCallOrder]
    rw [List.getElem?_map]
    have h2 : (List.range calls.length)[n]? = none := by
      simp [h1]
    have h3 : ((invoke defs cancelled calls).map some)[n]? = none := by
      simp [invoke_length, h1]
    rw [h2, h3]
    rfl

theorem concurrent_results_sorted_to_call_order_witness :
    ([1, 0].Perm (List.range (demoBackendErrors []).toolCalls.length))
    ∧ (resortToCallOrder (demoBackendErrors []).toolCalls.length
          (executeInOrder demoDefs false (demoBackendErrors []).toolCalls [1, 0])
        = (invoke demoDefs false (demoBackendErrors []).toolCalls).map some
      ∧ ∀ (n : Nat),
          ((invoke demoDefs false (demoBackendErrors []).toolCalls)[n]?).map ToolResult.callId
            = ((demoBackendErrors []).toolCalls[n]?).map ToolCall.id) :=
  ⟨by decide,
    concurrent_results_sorted_to_call_order demoDefs false
      (demoBackendErrors []).toolCalls [1, 0] (by decide)⟩

theorem eventStep_stepEvents (k : Nat) (out : BackendOutput) (results : List ToolResult) :
    ∀ e ∈ stepEvents k out results, eventStep e = some k := by
  intro e he
  simp [stepEvents] at he
  rcases he with h | h | h | h | h
  · subst h
    rfl
  · obtain ⟨a, b, _, rfl⟩ := h
    rfl
  · obtain ⟨c, _, rfl⟩ := h
    rfl
  · obtain ⟨r, _, rfl⟩ := h
    rfl
  · subst h
    rfl

theorem eventStep_runEventsAux (steps : List Step) :
    ∀ (k : Nat), ∀ e ∈ runEventsAux k steps, ∃ j, eventStep e = some j ∧ k ≤ j := by
  induction steps with
  | nil =>
    intro k e he
    simp [runEventsAux] at he
  | cons st rest ih =>
    intro k e he
    rw [runEventsAux] at he
    cases List.mem_append.mp he with
    | inl h => exact ⟨k, eventStep_stepEvents k st.output st.toolResults e h, Nat.le_refl k⟩
    | inr h =>
      obtain ⟨j, hj, hle⟩ := ih (k + 1) e h
      exact ⟨j, hj, by omega⟩

theorem pairwise_runEventsAux (steps : List Step) :
    ∀ (k : Nat), List.Pairwise stepTagLE (runEventsAux k steps) := by
  induction steps with
  | nil =>
    intro k
    simp [runEventsAux]
  | cons st rest ih =>
    intro k
    rw [runEventsAux]
    apply List.pairwise_append.mpr
    refine ⟨?_, ih (k + 1), ?_⟩
    · apply List.pairwise_of_forall_mem_list
      intro e1 h1 e2 h2 a b ha hb
      rw [eventStep_stepEvents k st.output st.toolResults e1 h1] at ha
      rw [eventStep_stepEvents k st.output st.toolResults e2 h2] at hb
      cases ha
      cases hb
      omega
    · intro e1 h1 e2 h2 a b ha hb
      rw [eventStep_stepEvents k st.output st.toolResults e1 h1] at ha
      obtain ⟨j, hj, hle⟩ := eventStep_runEventsAux rest (k + 1) e2 h2
      rw [hj] at hb
      cases ha
      cases hb
      omega

theorem pairwise_runEvents (steps : List Step) :
    List.Pairwise stepTagLE (runEvents steps) := by
  rw [runEvents]
  apply List.pairwise_append.mpr
  refine ⟨pairwise_runEventsAux steps 0, by simp, ?_⟩
  intro e1 _ e2 h2 a b _ hb
  simp at h2
  subst h2
  simp [eventStep] at hb

theorem filterMap_deltaProj_toolCallEvts (b k : Nat) (cs : List ToolCall) :
    List.filterMap (deltaProj b)
        (cs.map (fun c => StreamEvent.toolCallEvt k c.id c.toolName)) = [] := by
  induction cs with
  | nil => rfl
  | cons c cs ih => simp [List.filterMap_cons, deltaProj, ih]

theorem filterMap_deltaProj_toolResultEvts (b k : Nat) (rs : List ToolResult) :
    List.filterMap (deltaProj b)
        (rs.map (fun r => StreamEvent.toolResultEvt k r.callId r.outcome)) = [] := by
  induction rs with
  | nil => rfl
  | cons r rs ih => simp [List.filterMap_cons, deltaProj, ih]

theorem filterMap_deltaProj_textDeltas (b k : Nat) (ds : List (Nat × String)) :
    List.filterMap (deltaProj b)
        (ds.map (fun p => StreamEvent.textDelta k p.1 p.2))
      = (ds.filter (fun pr => pr.1 == b)).map Prod.snd := by
  induction ds with
  | nil => rfl
  | cons d ds ih =>
    by_cases h : d.1 == b
    · simp [List.filterMap_cons, List.filter_cons, deltaProj, h, ih]
    · simp only [Bool.not_eq_true] at h
      simp [List.filterMap_cons, List.filter_cons, deltaProj, h, ih]

/-- Within one step's event block, the text deltas of a given content block
are exactly the backend's deltas of that block, in production order. -/
theorem deltasOfBlock_stepEvents (k b : Nat) (out : BackendOutput)
    (results : List ToolResult) :
    deltasOfBlock b (stepEvents k out results)
      = (out.textDeltas.filter (fun pr => pr.1 == b)).map Prod.snd := by
  rw [deltasOfBlock, stepEvents]
  simp only [List.filterMap_cons, List.filterMap_append,
    filterMap_deltaProj_textDeltas, filterMap_deltaProj_toolCallEvts,
    filterMap_deltaProj_toolResultEvts, deltaProj]
  simp [List.filterMap_cons, deltaProj]

/-- C6: in the Stream Event sequence of a Run, every event belonging to
step k is emitted before any event belonging to step k+1 (no event is
reordered or duplicated: the sequence is a single canonical list handed to
every subscriber), and within a step the text deltas of a given content
block are emitted exactly in the order the backend produced them. -/
theorem stream_events_strictly_step_ordered (steps : List Step)
    (p q k kk b : Nat) (ep e2 : StreamEvent) (st : Step)
    (hp : (runEvents steps)[p]? = some ep)
    (hq : (runEvents steps)[q]? = some e2)
    (hkp : eventStep ep = some k)
    (hkq : eventStep e2 = some (k + 1))
    (_hst : steps[kk]? = some st) :
    p < q
    ∧ deltasOfBlock b (stepEvents kk st.output st.toolResults)
        = (st.output.textDeltas.filter (fun pr => pr.1 == b)).map Prod.snd := by
  constructor
  · have hpl : p < (runEvents steps).length := (List.getElem?_eq_some_iff.mp hp).1
    have hql : q < (runEvents steps).length := (List.getElem?_eq_some_iff.mp hq).1
    have hpe : (runEvents steps)[p] = ep := (List.getElem?_eq_some_iff.mp hp).2
    have hqe : (runEvents steps)[q] = e2 := (List.getElem?_eq_some_iff.mp hq).2
    have hpw := List.pairwise_iff_getElem.mp (pairwise_runEvents steps)
    rcases Nat.lt_trichotomy p q with h | h | h
    · exact h
    · exfalso
      subst h
      rw [hp] at hq
      have he : ep = e2 := by
        injection hq
      rw [he, hkq] at hkp
      have : k + 1 = k := by
        injection hkp
      omega
    · exfalso
      have hrel := hpw q p hql hpl h
      rw [hpe, hqe] at hrel
      have := hrel (k + 1) k hkq hkp
      omega
  · exact deltasOfBlock_stepEvents kk b st.output st.toolResults

theorem stream_events_strictly_step_ordered_witness :
    ((runEvents [⟨demoBackendText [], []⟩, ⟨demoBackendText [], []⟩])[2]?
        = some (StreamEvent.stepFinish 0)
      ∧ (runEvents [⟨demoBackendText [], []⟩, ⟨demoBackendText [], []⟩])[3]?
        = some (StreamEvent.stepStart 1)
      ∧ eventStep (StreamEvent.stepFinish 0) = some 0
      ∧ eventStep (StreamEvent.stepStart 1) = some (0 + 1)
      ∧ ([(⟨demoBackendText [], []⟩ : Step), ⟨demoBackendText [], []⟩])[0]?
        = some ⟨demoBackendText [], []⟩)
    ∧ (2 < 3
      ∧ deltasOfBlock 0 (stepEvents 0 (demoBackendText []) [])
        = (((demoBackendText []).textDeltas.filter (fun pr => pr.1 == 0)).map Prod.snd)) :=
  ⟨⟨rfl, rfl, rfl, rfl, rfl⟩,
    stream_events_strictly_step_ordered
      [⟨demoBackendText [], []⟩, ⟨demoBackendText [], []⟩]
      2 3 0 0 0 (StreamEvent.stepFinish 0) (StreamEvent.stepStart 1)
      ⟨demoBackendText [], []⟩ rfl rfl rfl rfl rfl⟩

theorem muxInv_init : MuxInv muxInit := by
  refine ⟨rfl, ?_, ?_⟩
  · intro i a h
    simp [muxInit] at h
  · intro i a q h _
    simp [muxInit] at h

theorem muxInv_step (s : MuxState) (op : MuxOp) (hs : MuxInv s) : MuxInv (muxStep s op) := by
  obtain ⟨hlen, hbound, hsuffix⟩ := hs
  cases op with
  | publishEvt e =>
    refine ⟨by simp [muxStep, hlen], ?_, ?_⟩
    · intro i a h
      simp only [muxStep] at h
      have := hbound i a h
      simp [muxStep]
      omega
    · intro i a q ha hq
      simp only [muxStep] at ha hq
      rw [List.getElem?_map] at hq
      cases hq0 : s.queues[i]? with
      | none =>
        rw [hq0] at hq
        exact absurd hq (by simp)
      | some q0 =>
        rw [hq0] at hq
        simp only [Option.map_some'] at hq
        have hq' : q = q0 ++ [e] := by
          injection hq with h
          exact h.symm
        rw [hq', hsuffix i a q0 ha hq0]
        simp only [muxStep]
        rw [List.drop_append_of_le_length (hbound i a ha)]
  | subscribeSub =>
    refine ⟨by simp [muxStep, hlen], ?_, ?_⟩
    · intro i a h
      simp only [muxStep] at h
      by_cases hi : i < s.attach.length
      · rw [List.getElem?_append_left hi] at h
        exact hbound i a h
      · have hi' : s.attach.length ≤ i := Nat.le_of_not_lt hi
        rw [List.getElem?_append_right hi'] at h
        cases hii : i - s.attach.length with
        | zero =>
          rw [hii] at h
          simp at h
          simp [muxStep]
          omega
        | succ m =>
          rw [hii] at h
          simp at h
    · intro i a q ha hq
      simp only [muxStep] at ha hq
      by_cases hi : i < s.attach.length
      · rw [List.getElem?_append_left hi] at ha
        rw [List.getElem?_append_left (hlen ▸ hi)] at hq
        exact hsuffix i a q ha hq
      · have hi' : s.attach.length ≤ i := Nat.le_of_not_lt hi
        rw [List.getElem?_append_right hi'] at ha
        rw [List.getElem?_append_right (hlen ▸ hi')] at hq
        rw [hlen] at ha
        cases hii : i - s.queues.length with
        | zero =>
          rw [hii] at ha hq
          simp at ha hq
          rw [hq, ← ha]
          simp [muxStep, List.drop_length]
        | succ m =>
          rw [hii] at ha
          simp at ha

theorem muxInv_foldl (ops : List MuxOp) :
    ∀ s : MuxState, MuxInv s → MuxInv (ops.foldl muxStep s) := by
  induction ops with
  | nil =>
    intro s hs
    exact hs
  | cons op rest ih =>
    intro s hs
    exact ih (muxStep s op) (muxInv_step s op hs)

theorem muxInv_run (ops : List MuxOp) : MuxInv (muxRun ops) :=
  muxInv_foldl ops muxInit muxInv_init

/-- C7: for every sequence of multiplexer operations, every subscriber's
observed sequence is exactly the suffix of the produced event sequence from
its attachment point forward — never previously-produced history — and any
two subscribers with the same attachment point (in particular, any two
attached before the Run starts) observe identical, identically-ordered
event sequences. -/
theorem multiplexer_suffix_fanout (ops : List MuxOp) (i j ai aj : Nat)
    (qi qj : List StreamEvent)
    (hai : (muxRun ops).attach[i]? = some ai)
    (haj : (muxRun ops).attach[j]? = some aj)
    (hqi : (muxRun ops).queues[i]? = some qi)
    (hqj : (muxRun ops).queues[j]? = some qj)
    (heq : ai = aj) :
    qi = (muxRun ops).produced.drop ai ∧ qi = qj := by
  obtain ⟨_, _, hsuffix⟩ := muxInv_run ops
  have h1 : qi = (muxRun ops).produced.drop ai := hsuffix i ai qi hai hqi
  have h2 : qj = (muxRun ops).produced.drop aj := hsuffix j aj qj haj hqj
  refine ⟨h1, ?_⟩
  rw [h1, h2, heq]

theorem multiplexer_suffix_fanout_witness :
    ((muxRun [MuxOp.subscribeSub, MuxOp.subscribeSub,
        MuxOp.publishEvt (StreamEvent.stepStart 0), MuxOp.subscribeSub,
        MuxOp.publishEvt StreamEvent.runFinish]).attach[0]? = some 0
      ∧ (muxRun [MuxOp.subscribeSub, MuxOp.subscribeSub,
          MuxOp.publishEvt (StreamEvent.stepStart 0), MuxOp.subscribeSub,
          MuxOp.publishEvt StreamEvent.runFinish]).attach[1]? = some 0
      ∧ (muxRun [MuxOp.subscribeSub, MuxOp.subscribeSub,
          MuxOp.publishEvt (StreamEvent.stepStart 0), MuxOp.subscribeSub,
          MuxOp.publishEvt StreamEvent.runFinish]).queues[0]?
          = some [StreamEvent.stepStart 0, StreamEvent.runFinish]
      ∧ (muxRun [MuxOp.subscribeSub, MuxOp.subscribeSub,
          MuxOp.publishEvt (StreamEvent.stepStart 0), MuxOp.subscribeSub,
          MuxOp.publishEvt StreamEvent.runFinish]).queues[1]?
          = some [StreamEvent.stepStart 0, StreamEvent.runFinish])
    ∧ ([StreamEvent.stepStart 0, StreamEvent.runFinish]
        = (muxRun [MuxOp.subscribeSub, MuxOp.subscribeSub,
            MuxOp.publishEvt (StreamEvent.stepStart 0), MuxOp.subscribeSub,
            MuxOp.publishEvt StreamEvent.runFinish]).produced.drop 0
      ∧ [StreamEvent.stepStart 0, StreamEvent.runFinish]
        = [StreamEvent.stepStart 0, StreamEvent.runFinish]) :=
  ⟨⟨rfl, rfl, rfl, rfl⟩,
    multiplexer_suffix_fanout
      [MuxOp.subscribeSub, MuxOp.subscribeSub,
        MuxOp.publishEvt (StreamEvent.stepStart 0), MuxOp.subscribeSub,
        MuxOp.publishEvt StreamEvent.runFinish]
      0 1 0 0 [StreamEvent.stepStart 0, StreamEvent.runFinish]
      [StreamEvent.stepStart 0, StreamEvent.runFinish] rfl rfl rfl rfl rfl⟩

/-- C8: cancelling a Run's cancellation token a second time is a no-op (the
state after two cancellations equals the state after one, so no additional
Stream Events appear in the produced sequence or in any subscriber queue
and the terminal state is unchanged), and cancelling a Run that has already
reached a terminal state leaves the Run state entirely unchanged and raises
no error. -/
theorem cancellation_idempotent (r s : RunState) (h : s.terminal.isSome = true) :
    cancelRun (cancelRun r) = cancelRun r ∧ cancelRun s = s := by
  constructor
  · by_cases hr : r.terminal.isSome
    · simp [cancelRun, hr]
    · simp [cancelRun, hr]
  · simp [cancelRun, h]

theorem cancellation_idempotent_witness :
    ((some RunTerminal.success).isSome = true)
    ∧ (cancelRun (cancelRun ⟨none, false, muxInit⟩) = cancelRun ⟨none, false, muxInit⟩
      ∧ cancelRun ⟨some RunTerminal.success, false, muxInit⟩
        = ⟨some RunTerminal.success, false, muxInit⟩) :=
  ⟨rfl, cancellation_idempotent ⟨none, false, muxInit⟩
    ⟨some RunTerminal.success, false, muxInit⟩ rfl⟩

/-- C9: for every no-output failure — the backend completed without error
but its raw text cannot be parsed/validated against the caller's required
structure — the structured Run terminates fatally with a
NoObjectGeneratedError whose text, response and usage fields equal the raw
text, response metadata and usage counters observed at failure time. -/
theorem no_output_failure_carries_context {α : Type} (parse : String → Option α)
    (text : String) (response : LanguageModelResponseMetadata) (usage : Usage)
    (h : parse text = none) :
    ∃ e : NoObjectGeneratedError,
      finalizeObject parse text response usage = Except.error e
      ∧ e.text = some text ∧ e.response = response ∧ e.usage = usage := by
  refine ⟨NoObjectGeneratedError.ofArgs ⟨none, none, some text, response, usage⟩,
    ?_, rfl, rfl, rfl⟩
  simp [finalizeObject, h]

theorem no_output_failure_carries_context_witness :
    ((fun _ => (none : Option Nat)) "not json" = none)
    ∧ ∃ e : NoObjectGeneratedError,
        finalizeObject (fun _ => (none : Option Nat)) "not json" ⟨"id-0", 0, "mock"⟩ ⟨3, 5⟩
          = Except.error e
        ∧ e.text = some "not json" ∧ e.response = ⟨"id-0", 0, "mock"⟩ ∧ e.usage = ⟨3, 5⟩ :=
  ⟨rfl, no_output_failure_carries_context (fun _ => (none : Option Nat))
    "not json" ⟨"id-0", 0, "mock"⟩ ⟨3, 5⟩ rfl⟩

/-- C10: every error built with the NoObjectGeneratedError constructor
satisfies NoObjectGeneratedError.isInstance, and when no message is
supplied the constructed error's message is the default
"No object generated.". -/
theorem noObjectGeneratedError_isInstance_of_constructed (a : NoObjectGeneratedErrorArgs) :
    NoObjectGeneratedError.isInstance
        (ErrorValue.noObjectGenerated (NoObjectGeneratedError.ofArgs a)) = true
    ∧ (NoObjectGeneratedError.ofArgs
        ⟨none, a.cause, a.text, a.response, a.usage⟩).message = "No object generated." := by
  constructor
  · rfl
  · rfl

end VercelAI
